import Mathlib

/-!
Verification of the OnDL directory-based job queue.

This file gives a shallow embedding of the queue core of the repository:

* `src/ondl/queue.py`   — parse/claim/finish/reap (namespace `OndlQueue`)
* `src/bin/consumer.py` — the legacy variant of the same logic (namespace `BinConsumer`)
* `src/consume.py`      — the run loop (namespace `Consume`)
* `src/ingest.py`       — the ingestion / dedup gate (namespace `Ingest`)

Modelling conventions:

* A state directory is a list of file entries `(name, mtime, content)`.
  `Path.replace` (POSIX `rename`, which atomically clobbers an existing
  destination entry of the same name) is modelled by `insertReplace`.
* Job file contents are modelled as either a JSON object with string-valued
  fields (`JobText.objDoc`) or text that fails `json.loads` (`JobText.badJson`).
  Only the string-valued fields `url` / `category` / `app` are ever read by the
  code under verification.
* Python string helpers (`str.strip`, `str.lower`, `str.startswith`, string
  comparison) are re-implemented over the character list of the string, with
  string order given by the code-point sequence (exactly Python's `str` order);
  this keeps every definition evaluable by the kernel.
* Filesystem errors that the code reacts to are injected through explicit
  outcome parameters (`MoveOutcome` for the reapers, `toolResolved` /
  `keyline` for the external yt-dlp calls of the ingest gate).
-/

namespace OnDL

/-- Content of an on-disk job file: either a JSON object whose fields the code
reads as strings, or text on which `json.loads` raises. -/
inductive JobText
  | objDoc (fields : List (String × String))
  | badJson
deriving DecidableEq, Repr

/-- Python `dict.get(k)` over the field list of a JSON object. -/
def getField (fs : List (String × String)) (k : String) : Option String :=
  (fs.find? (fun p => p.1 == k)).map (fun p => p.2)

/-- Python `dict.get(k, d)`: lookup with a default for a missing key. -/
def getFieldD (fs : List (String × String)) (k d : String) : String :=
  (getField fs k).getD d

/-- Python `dict[k] = v`: replace the value of an existing key, else append the pair. -/
def setField (fs : List (String × String)) (k v : String) : List (String × String) :=
  if (getField fs k).isSome then fs.map (fun p => if p.1 == k then (k, v) else p)
  else fs ++ [(k, v)]

/-- Python `x or d` on an optional string field: `None` and `""` are falsy,
so both fall back to the default. -/
def pyOr (o : Option String) (d : String) : String :=
  match o with
  | none => d
  | some s => if s == "" then d else s

/-- Python `str.strip()`: drop leading and trailing whitespace. -/
def pyStrip (s : String) : String :=
  String.mk (((s.data.dropWhile Char.isWhitespace).reverse.dropWhile Char.isWhitespace).reverse)

/-- Python `str.lower()`. -/
def pyLower (s : String) : String :=
  String.mk (s.data.map Char.toLower)

/-- Python `str.startswith(p)`. -/
def pyStartsWith (s p : String) : Bool :=
  p.data.isPrefixOf s.data

/-- The code-point sequence of a string; Python compares `str` values by
exactly this sequence, lexicographically. -/
def codes (s : String) : List Nat :=
  s.data.map Char.toNat

/-- One file inside a state directory: its name, its `st_mtime`, and its text. -/
structure FileEnt where
  name : String
  mtime : Nat
  content : JobText
deriving DecidableEq, Repr

/-- A state directory is the list of files it holds. -/
abbrev Dir := List FileEnt

/-- Does the directory hold a file of this name? -/
def containsName (d : Dir) (n : String) : Bool :=
  d.any (fun e => e.name == n)

/-- Lookup by name, as `stat`/`open` on a path: the entry, if present. -/
def lookupName (d : Dir) (n : String) : Option FileEnt :=
  d.find? (fun e => e.name == n)

/-- Remove the entry of the given name (no-op when absent). -/
def removeName (d : Dir) (n : String) : Dir :=
  d.filter (fun e => e.name != n)

/-- Drop a file into a directory the way `os.rename` does: an existing entry of
the same name is silently clobbered. -/
def insertReplace (d : Dir) (e : FileEnt) : Dir :=
  e :: removeName d e.name

/-- The four queue state directories derived by `build_paths` (src/ondl/paths.py).
`logs`/`previews`/`staging` hold no job records and are not modelled. -/
structure QState where
  incoming : Dir
  processing : Dir
  done : Dir
  error : Dir
deriving DecidableEq, Repr

/-- In how many of the four state directories does a file of this name exist? -/
def inDirCount (st : QState) (n : String) : Nat :=
  (containsName st.incoming n).toNat + (containsName st.processing n).toNat +
    (containsName st.done n).toNat + (containsName st.error n).toNat

/-- The parsed Job record (src/ondl/models.py). -/
structure Job where
  url : String
  category : String
  app : String
  raw : List (String × String)
deriving DecidableEq, Repr

/-- Outcome of an individual `Path.replace` attempted by a reaper, injected as
an environment parameter: success, `FileNotFoundError` (the job vanished in a
race), or any other `OSError` (permissions, I/O failure, ...). -/
inductive MoveOutcome
  | ok
  | vanished
  | osError
deriving DecidableEq, Repr

namespace OndlQueue

/-- Error raised by `parse_job_file` in src/ondl/queue.py: the only failure it
can raise itself is `json.loads` failing on the file text. -/
inductive ParseErr
  | jsonError
deriving DecidableEq, Repr

/-- src/ondl/queue.py `parse_job_file`: `json.loads` the text, then build a Job
from `raw.get(k, "")` with `str(...).strip()` applied — no defaulting beyond
the empty string, and no check that a url is present. -/
def parse_job_file : JobText → Except ParseErr Job
  | .badJson => .error .jsonError
  | .objDoc raw =>
      .ok { url := pyStrip (getFieldD raw "url" ""),
            category := pyStrip (getFieldD raw "category" ""),
            app := pyStrip (getFieldD raw "app" ""),
            raw := raw }

/-- src/ondl/queue.py `claim_job`: `job_path.replace(processing / name)`.
`none` models the `FileNotFoundError` raised when the file is no longer in
incoming (another consumer won the claim race). -/
def claim_job (st : QState) (n : String) : Option QState :=
  match lookupName st.incoming n with
  | none => none
  | some e =>
      some { st with incoming := removeName st.incoming n,
                     processing := insertReplace st.processing e }

/-- src/ondl/queue.py `finish_job`: rename the claimed file from processing
into done (ok) or error (not ok); `none` models `FileNotFoundError`. -/
def finish_job (st : QState) (n : String) (ok : Bool) : Option QState :=
  match lookupName st.processing n with
  | none => none
  | some e =>
      if ok then
        some { st with processing := removeName st.processing n,
                       done := insertReplace st.done e }
      else
        some { st with processing := removeName st.processing n,
                       error := insertReplace st.error e }

/-- One reaper move of src/ondl/queue.py: `job.replace(target_dir / job.name)`
with target incoming (requeue) or error; the destination is clobbered if a
file of the same name is already there. -/
def reapMove (st : QState) (e : FileEnt) (requeue : Bool) : QState :=
  if requeue then
    { st with processing := removeName st.processing e.name,
              incoming := insertReplace st.incoming e }
  else
    { st with processing := removeName st.processing e.name,
              error := insertReplace st.error e }

/-- The per-job loop of src/ondl/queue.py `reap_stale_processing_jobs` over the
globbed snapshot of processing.  A `stat` miss is `continue`; a stale job is
moved, counting it; `FileNotFoundError` from the move is `pass`; any other
`OSError` is not caught and aborts the whole pass. -/
def reapGo (jobs : List FileEnt) (st : QState) (cutoff : Int) (requeue : Bool)
    (mo : String → MoveOutcome) (moved : Nat) : Except String (QState × Nat) :=
  match jobs with
  | [] => .ok (st, moved)
  | j :: rest =>
      match lookupName st.processing j.name with
      | none => reapGo rest st cutoff requeue mo moved
      | some cur =>
          if (cur.mtime : Int) ≥ cutoff then reapGo rest st cutoff requeue mo moved
          else
            match mo j.name with
            | .vanished => reapGo rest st cutoff requeue mo moved
            | .osError => .error "OSError"
            | .ok => reapGo rest (reapMove st cur requeue) cutoff requeue mo (moved + 1)

/-- src/ondl/queue.py `reap_stale_processing_jobs`: disabled for a
non-positive threshold, `ValueError` on an unknown action, else move every
processing job older than `now - stale_minutes * 60` to incoming or error. -/
def reap_stale_processing_jobs (st : QState) (stale_minutes : Int) (action : String)
    (now : Int) (mo : String → MoveOutcome) : Except String (QState × Nat) :=
  if stale_minutes ≤ 0 then .ok (st, 0)
  else
    let a := pyLower (pyStrip action)
    if a == "requeue" || a == "error" then
      reapGo st.processing st (now - stale_minutes * 60) (a == "requeue") mo 0
    else .error "ValueError"

end OndlQueue

namespace BinConsumer

/-- Failures of `parse_job_file` in src/bin/consumer.py: `json.loads` raising
on a brace-led blob, or the final `RuntimeError` for a job without a URL. -/
inductive ParseErr
  | jsonError
  | noUrl
deriving DecidableEq, Repr

/-- src/bin/consumer.py `parse_job_file`, JSON branch: fields default through
`data.get(k) or default` (so a missing *or empty* field gets the default),
then the url must start with "http" or the parse raises.  The plaintext
fallback branch (a blob not led by a brace) is not modelled: every job file
written by the ingest entrypoint is a `json.dumps` object. -/
def parse_job_file : JobText → Except ParseErr Job
  | .badJson => .error .jsonError
  | .objDoc data =>
      let url := pyStrip (pyOr (getField data "url") "")
      let category := pyStrip (pyOr (getField data "category") "unsorted")
      let app := pyStrip (pyOr (getField data "app") "YouTube")
      if pyStartsWith (pyLower url) "http" then
        .ok { url := url, category := category, app := app, raw := data }
      else .error .noUrl

/-- Python `PurePath.stem` and `PurePath.suffix`: split a filename at its last dot,
except when the dot leads the name or trails it, or there is none. -/
def splitExt (n : String) : String × String :=
  let cs := n.data
  let revTail := cs.reverse.takeWhile (fun c => c != '.')
  if revTail.length = cs.length ∨ revTail.length = 0 ∨ revTail.length + 1 = cs.length then
    (n, "")
  else
    (String.mk (cs.take (cs.length - (revTail.length + 1))),
     String.mk (cs.drop (cs.length - (revTail.length + 1))))

/-- The collision-avoiding destination name of the src/bin/consumer.py reaper:
stem, then ".reaped-", the timestamp, then the original extension. -/
def reapedName (n stamp : String) : String :=
  (splitExt n).1 ++ ".reaped-" ++ stamp ++ (splitExt n).2

/-- The per-job loop of the src/bin/consumer.py reaper: candidates sorted by
mtime; a stale job whose destination name already exists is diverted to a
`reapedName`; every exception from the move is caught, logged and skipped. -/
def reapGoC (jobs : List FileEnt) (st : QState) (cutoff : Int) (requeue : Bool)
    (mo : String → MoveOutcome) (stamp : String) (reaped : Nat) : QState × Nat :=
  match jobs with
  | [] => (st, reaped)
  | j :: rest =>
      match lookupName st.processing j.name with
      | none => reapGoC rest st cutoff requeue mo stamp reaped
      | some cur =>
          if (cur.mtime : Int) ≥ cutoff then reapGoC rest st cutoff requeue mo stamp reaped
          else
            let destDir := if requeue then st.incoming else st.error
            let destName := if containsName destDir j.name then reapedName j.name stamp else j.name
            match mo j.name with
            | .ok =>
                let moved : FileEnt := { cur with name := destName }
                let st' :=
                  if requeue then
                    { st with processing := removeName st.processing j.name,
                              incoming := insertReplace st.incoming moved }
                  else
                    { st with processing := removeName st.processing j.name,
                              error := insertReplace st.error moved }
                reapGoC rest st' cutoff requeue mo stamp (reaped + 1)
            | _ => reapGoC rest st cutoff requeue mo stamp reaped

/-- mtime-ascending candidate order of the src/bin/consumer.py reaper and run
loop (`sorted(..., key=lambda p: p.stat().st_mtime)`). -/
def mtimeLe (a b : FileEnt) : Prop := a.mtime ≤ b.mtime

instance : DecidableRel mtimeLe := fun a b => by unfold mtimeLe; infer_instance

instance : IsTotal FileEnt mtimeLe := ⟨fun a b => Nat.le_total a.mtime b.mtime⟩

instance : IsTrans FileEnt mtimeLe := ⟨fun _ _ _ h1 h2 => Nat.le_trans h1 h2⟩

/-- src/bin/consumer.py `reap_stale_processing_jobs`: threshold gate, action
defaulting (`action or "requeue"`) and validation, then the per-job loop over
the mtime-sorted candidates. -/
def reap_stale_processing_jobs (st : QState) (stale_minutes : Int) (action : String)
    (now : Int) (mo : String → MoveOutcome) (stamp : String) :
    Except String (QState × Nat) :=
  if stale_minutes ≤ 0 then .ok (st, 0)
  else
    let a := pyLower (pyStrip (if action == "" then "requeue" else action))
    if a == "requeue" || a == "error" then
      .ok (reapGoC (st.processing.insertionSort mtimeLe) st (now - stale_minutes * 60)
            (a == "requeue") mo stamp 0)
    else .error "RuntimeError"

/-- src/bin/consumer.py line 788: jobs listed oldest first by mtime. -/
def listReadyByMtime (d : Dir) : List FileEnt :=
  d.insertionSort mtimeLe

end BinConsumer

namespace Consume

/-- Filename order of src/consume.py line 45: `sorted(...)` over `Path`
values compares their strings, i.e. the code-point sequences of the names. -/
def nameLe (a b : FileEnt) : Prop := codes a.name ≤ codes b.name

instance : DecidableRel nameLe := fun a b => by unfold nameLe; infer_instance

instance : IsTotal FileEnt nameLe := ⟨fun a b => le_total (codes a.name) (codes b.name)⟩

instance : IsTrans FileEnt nameLe := ⟨fun _ _ _ h1 h2 => le_trans h1 h2⟩

/-- src/consume.py line 45: `sorted(paths.incoming.glob(job_glob))` — the
ready jobs in lexicographic filename order. -/
def listReady (d : Dir) : List FileEnt :=
  d.insertionSort nameLe

/-- One iteration of the src/consume.py per-job body (lines 57-167): claim,
run the pipeline, and in the `finally` block call `finish_job` whenever the
claim produced a path.  `bodyOk` abstracts whether any exception escaped the
pipeline between parse and notification (`ok` stays `False` on any exception,
including `parse_job_file` raising).  Returns the state after the iteration
and the number of `finish_job` calls made. -/
def runJobIteration (st : QState) (jobName : String) (bodyOk : Bool) : QState × Nat :=
  match OndlQueue.claim_job st jobName with
  | none => (st, 0)
  | some st1 =>
      match OndlQueue.finish_job st1 jobName bodyOk with
      | some st2 => (st2, 1)
      | none => (st1, 1)

/-- The src/consume.py job loop over the snapshot listed at scan time: stop
once `processed >= max_per_run`, else run one iteration and bump `processed`
in the `finally` block no matter how the iteration went.  Also accumulates the
number of successful claims (= `finish_job` calls). -/
def runLoopFrom (snapshot : List String) (st : QState) (bodyOk : String → Bool)
    (maxPerRun : Nat) (processed finished : Nat) : QState × Nat × Nat :=
  match snapshot with
  | [] => (st, processed, finished)
  | j :: rest =>
      if processed ≥ maxPerRun then (st, processed, finished)
      else
        let r := runJobIteration st j (bodyOk j)
        runLoopFrom rest r.1 bodyOk maxPerRun (processed + 1) (finished + r.2)

/-- The whole src/consume.py job loop of one invocation, starting from the
sorted glob of incoming. -/
def runLoop (st : QState) (bodyOk : String → Bool) (maxPerRun : Nat) : QState × Nat × Nat :=
  runLoopFrom ((listReady st.incoming).map FileEnt.name) st bodyOk maxPerRun 0 0

end Consume

namespace Ingest

/-- Result of `sys.stdin.read()` + `_maybe_b64_decode` + `json.loads`:
nothing, text that is not a JSON object, or an object with string fields.
(The base64 decoding step is a bijective transport and is not modelled.) -/
inductive StdinData
  | empty
  | invalid
  | obj (fields : List (String × String))
deriving DecidableEq, Repr

/-- Environment of one ingest invocation: whether `resolve_tool("yt-dlp", ...)`
succeeds (src/ondl/tools.py raises `RuntimeError` otherwise), the line
`_archive_keyline` returned (`none` when the yt-dlp probe command failed), and
the lines of the dedup archive file. -/
structure IngestEnv where
  toolResolved : Bool
  keyline : Option String
  archive : List String

/-- The one-line status + exit code of src/ingest.py `main`. -/
inductive IngestStatus
  | queued (fname : String)
  | alreadyQueued
  | alreadyDownloaded
  | errEmptyStdin
  | errInvalid
  | errInternal
deriving DecidableEq, Repr

/-- Exit codes of src/ingest.py: 0 success, 2 invalid payload, 3 internal. -/
def exitCode : IngestStatus → Nat
  | .queued _ => 0
  | .alreadyQueued => 0
  | .alreadyDownloaded => 0
  | .errEmptyStdin => 2
  | .errInvalid => 2
  | .errInternal => 3

/-- src/ingest.py `_already_queued`: scan incoming then processing, and report
a job whose stored `url` field (stripped) equals the requested one; files that
fail `json.loads` are skipped. -/
def already_queued (st : QState) (url : String) : Bool :=
  (st.incoming ++ st.processing).any (fun e =>
    match e.content with
    | .objDoc f => pyStrip (getFieldD f "url" "") == url
    | .badJson => false)

/-- src/ingest.py `_archive_contains`: membership of the exact key line. -/
def archive_contains (archive : List String) (keyline : String) : Bool :=
  archive.any (fun ln => ln == keyline)

/-- src/ingest.py `_enqueue_atomic`: write a temp file next to the final name,
then `tmp.replace(final)` — the job appears in incoming in one atomic rename. -/
def enqueue_atomic (incoming : Dir) (filename : String) (now : Nat)
    (payload : List (String × String)) : Dir :=
  insertReplace incoming ⟨filename, now, .objDoc payload⟩

/-- src/ingest.py `main` (lines 128-176): empty-stdin and parse gates, url
extraction, app defaulting, tool resolution, the already-queued then
already-downloaded checks, and finally the atomic enqueue under the filename
`<ts>-<rand>.dljob`.  `ValueError`/JSON errors exit 2; any other exception —
in particular `resolve_tool` raising `RuntimeError` — exits 3 through the
generic handler, before any dedup check runs. -/
def ingest_main (env : IngestEnv) (stdin : StdinData) (st : QState)
    (ts : String) (rand : Nat) (now : Nat) : IngestStatus × QState :=
  match stdin with
  | .empty => (.errEmptyStdin, st)
  | .invalid => (.errInvalid, st)
  | .obj fields =>
      let url := pyStrip (getFieldD fields "url" "")
      if url == "" then (.errInvalid, st)
      else
        let app0 := pyStrip (pyStrip (getFieldD fields "app" ""))
        let app := if app0 == "" then "YouTube" else app0
        let fields1 := if app0 == "" then setField fields "app" app else fields
        if !env.toolResolved then (.errInternal, st)
        else if already_queued st url then (.alreadyQueued, st)
        else if (match env.keyline with
                 | some k => archive_contains env.archive k
                 | none => false) then (.alreadyDownloaded, st)
        else
          let filename := ts ++ "-" ++ Nat.repr rand ++ ".dljob"
          let payload := setField (setField fields1 "url" url) "app" app
          (.queued filename, { st with incoming := enqueue_atomic st.incoming filename now payload })

end Ingest

/-- The operations that move job records across the state directories: the
atomic enqueue of src/ingest.py, and claim / finish / a reap pass of
src/ondl/queue.py. -/
inductive QOp
  | enqueueOp (e : FileEnt)
  | claimOp (n : String)
  | finishOp (n : String) (ok : Bool)
  | reapOp (stale_minutes : Int) (action : String) (now : Int) (mo : String → MoveOutcome)

/-- Apply one queue operation; `none` collects every raised error
(`FileNotFoundError` on claim/finish, `ValueError`/`OSError` of the reaper). -/
def applyOp (st : QState) : QOp → Option QState
  | .enqueueOp e => some { st with incoming := insertReplace st.incoming e }
  | .claimOp n => OndlQueue.claim_job st n
  | .finishOp n ok => OndlQueue.finish_job st n ok
  | .reapOp m a now mo =>
      ((OndlQueue.reap_stale_processing_jobs st m a now mo).toOption).map Prod.fst

/-- The filenames present in a directory. -/
def namesOf (d : Dir) : List String :=
  d.map FileEnt.name

theorem mem_namesOf_removeName {d : Dir} {m n : String} :
    n ∈ namesOf (removeName d m) ↔ n ∈ namesOf d ∧ n ≠ m := by
  simp only [namesOf, removeName, List.mem_map, List.mem_filter, bne_iff_ne]
  constructor
  · rintro ⟨e, ⟨he, hne⟩, rfl⟩
    exact ⟨⟨e, he, rfl⟩, hne⟩
  · rintro ⟨⟨e, he, rfl⟩, hne⟩
    exact ⟨e, ⟨he, hne⟩, rfl⟩

theorem mem_namesOf_insertReplace {d : Dir} {e : FileEnt} {n : String} :
    n ∈ namesOf (insertReplace d e) ↔ n = e.name ∨ n ∈ namesOf d := by
  have h : namesOf (insertReplace d e) = e.name :: namesOf (removeName d e.name) := rfl
  rw [h, List.mem_cons, mem_namesOf_removeName]
  by_cases hne : n = e.name
  · simp [hne]
  · simp [hne]

theorem containsName_iff {d : Dir} {n : String} :
    containsName d n = true ↔ n ∈ namesOf d := by
  simp [containsName, namesOf, List.any_eq_true, List.mem_map, beq_iff_eq]

theorem containsName_insertReplace (d : Dir) (e : FileEnt) (n : String) :
    containsName (insertReplace d e) n = ((n == e.name) || containsName d n) := by
  rw [Bool.eq_iff_iff]
  simp [containsName_iff, mem_namesOf_insertReplace, beq_iff_eq]

theorem containsName_removeName (d : Dir) (m n : String) :
    containsName (removeName d m) n = (containsName d n && !(n == m)) := by
  rw [Bool.eq_iff_iff]
  simp [containsName_iff, mem_namesOf_removeName, beq_iff_eq]

theorem lookupName_name {d : Dir} {n : String} {e : FileEnt}
    (h : lookupName d n = some e) : e.name = n := by
  have hp := List.find?_some h
  simpa [beq_iff_eq] using hp

theorem lookupName_isSome {d : Dir} {n : String} :
    (lookupName d n).isSome = containsName d n := by
  rw [Bool.eq_iff_iff]
  simp [lookupName, containsName, List.find?_isSome, List.any_eq_true]

theorem containsName_of_lookup {d : Dir} {n : String} {e : FileEnt}
    (h : lookupName d n = some e) : containsName d n = true := by
  rw [← lookupName_isSome, h]
  rfl

theorem exists_lookup_of_mem {d : Dir} {n : String} (h : n ∈ namesOf d) :
    ∃ e, lookupName d n = some e ∧ e.name = n := by
  have hs : (lookupName d n).isSome = true := by
    rw [lookupName_isSome]
    exact containsName_iff.2 h
  obtain ⟨e, he⟩ := Option.isSome_iff_exists.1 hs
  exact ⟨e, he, lookupName_name he⟩


/-- C1: every job the run loop successfully claims is finished exactly once on
every exit path, and afterwards its filename is in exactly one of done/error
and absent from incoming and processing. -/
theorem claimed_job_always_finished (st : QState) (n : String) (bodyOk : Bool)
    (hin : n ∈ namesOf st.incoming) (hproc : n ∉ namesOf st.processing)
    (hdone : n ∉ namesOf st.done) (herr : n ∉ namesOf st.error) :
    (Consume.runJobIteration st n bodyOk).2 = 1 ∧
      n ∉ namesOf (Consume.runJobIteration st n bodyOk).1.incoming ∧
      n ∉ namesOf (Consume.runJobIteration st n bodyOk).1.processing ∧
      (n ∈ namesOf (Consume.runJobIteration st n bodyOk).1.done ↔ bodyOk = true) ∧
      (n ∈ namesOf (Consume.runJobIteration st n bodyOk).1.error ↔ bodyOk = false) := by
  obtain ⟨e, he, hename⟩ := exists_lookup_of_mem hin
  have hlook2 : lookupName (insertReplace st.processing e) n = some e := by
    simp [lookupName, insertReplace, List.find?_cons, hename]
  simp only [Consume.runJobIteration, OndlQueue.claim_job, he, OndlQueue.finish_job, hlook2]
  cases bodyOk with
  | true =>
      simp [mem_namesOf_removeName, mem_namesOf_insertReplace, hename, hdone, herr, hproc]
  | false =>
      simp [mem_namesOf_removeName, mem_namesOf_insertReplace, hename, hdone, herr, hproc]



/-- Witness for C1 at a one-job queue. -/
theorem claimed_job_always_finished_witness :
    ("a.dljob" ∈ namesOf ([⟨"a.dljob", 0, .objDoc [("url", "u")]⟩] : Dir)) ∧
      ((Consume.runJobIteration ⟨[⟨"a.dljob", 0, .objDoc [("url", "u")]⟩], [], [], []⟩
          "a.dljob" true).2 = 1 ∧
        "a.dljob" ∉ namesOf (Consume.runJobIteration
          ⟨[⟨"a.dljob", 0, .objDoc [("url", "u")]⟩], [], [], []⟩ "a.dljob" true).1.incoming ∧
        "a.dljob" ∉ namesOf (Consume.runJobIteration
          ⟨[⟨"a.dljob", 0, .objDoc [("url", "u")]⟩], [], [], []⟩ "a.dljob" true).1.processing ∧
        ("a.dljob" ∈ namesOf (Consume.runJobIteration
          ⟨[⟨"a.dljob", 0, .objDoc [("url", "u")]⟩], [], [], []⟩ "a.dljob" true).1.done ↔ true = true) ∧
        ("a.dljob" ∈ namesOf (Consume.runJobIteration
          ⟨[⟨"a.dljob", 0, .objDoc [("url", "u")]⟩], [], [], []⟩ "a.dljob" true).1.error ↔ true = false)) :=
  ⟨by decide,
   claimed_job_always_finished ⟨[⟨"a.dljob", 0, .objDoc [("url", "u")]⟩], [], [], []⟩
     "a.dljob" true (by decide) (by decide) (by decide) (by decide)⟩



theorem reapMove_preserves (st : QState) (cur : FileEnt) (rq : Bool) (n : String)
    (hc : containsName st.processing cur.name = true) (h1 : inDirCount st n ≤ 1) :
    inDirCount (OndlQueue.reapMove st cur rq) n ≤ 1 := by
  by_cases hn : n = cur.name
  · subst hn
    cases hb1 : containsName st.incoming cur.name <;>
      cases hb2 : containsName st.processing cur.name <;>
      cases hb3 : containsName st.done cur.name <;>
      cases hb4 : containsName st.error cur.name <;>
      cases rq <;>
      simp_all [OndlQueue.reapMove, inDirCount, containsName_insertReplace,
        containsName_removeName, beq_iff_eq]
  · have hbe : (n == cur.name) = false := beq_eq_false_iff_ne.2 hn
    have hgoal : inDirCount (OndlQueue.reapMove st cur rq) n = inDirCount st n := by
      cases rq <;>
        simp [OndlQueue.reapMove, inDirCount, containsName_insertReplace,
          containsName_removeName, hbe]
    rw [hgoal]
    exact h1

theorem reapGo_preserves (n : String) (jobs : List FileEnt) :
    ∀ (st : QState) (cutoff : Int) (rq : Bool) (mo : String → MoveOutcome)
      (mv : Nat) (p : QState × Nat),
      inDirCount st n ≤ 1 → OndlQueue.reapGo jobs st cutoff rq mo mv = .ok p →
      inDirCount p.1 n ≤ 1 := by
  induction jobs with
  | nil =>
      intro st c rq mo mv p h1 h
      simp only [OndlQueue.reapGo, Except.ok.injEq] at h
      rw [← h]
      exact h1
  | cons j rest ih =>
      intro st c rq mo mv p h1 h
      unfold OndlQueue.reapGo at h
      cases hl : lookupName st.processing j.name with
      | none =>
          simp only [hl] at h
          exact ih st c rq mo mv p h1 h
      | some cur =>
          simp only [hl] at h
          by_cases hm : (cur.mtime : Int) ≥ c
          · rw [if_pos hm] at h
            exact ih st c rq mo mv p h1 h
          · rw [if_neg hm] at h
            cases hmo : mo j.name with
            | vanished =>
                simp only [hmo] at h
                exact ih st c rq mo mv p h1 h
            | osError =>
                simp only [hmo] at h
                exact absurd h (by simp)
            | ok =>
                simp only [hmo] at h
                have hc : containsName st.processing cur.name = true := by
                  rw [lookupName_name hl]
                  exact containsName_of_lookup hl
                exact ih _ c rq mo (mv + 1) p (reapMove_preserves st cur rq n hc h1) h

theorem reap_preserves (st : QState) (sm : Int) (a : String) (now : Int)
    (mo : String → MoveOutcome) (n : String) (h1 : inDirCount st n ≤ 1)
    (p : QState × Nat)
    (hr : OndlQueue.reap_stale_processing_jobs st sm a now mo = .ok p) :
    inDirCount p.1 n ≤ 1 := by
  unfold OndlQueue.reap_stale_processing_jobs at hr
  by_cases hsm : sm ≤ 0
  · rw [if_pos hsm] at hr
    simp only [Except.ok.injEq] at hr
    rw [← hr]
    exact h1
  · rw [if_neg hsm] at hr
    by_cases hav : (pyLower (pyStrip a) == "requeue" || pyLower (pyStrip a) == "error") = true
    · simp only [hav, if_true] at hr
      exact reapGo_preserves n st.processing st (now - sm * 60)
        (pyLower (pyStrip a) == "requeue") mo 0 p h1 hr
    · simp only [Bool.not_eq_true] at hav
      simp only [hav, Bool.false_eq_true, if_false] at hr
      exact absurd hr (by simp)



/-- C2: every queue operation — atomic enqueue, claim, finish, and a reap
pass — preserves the invariant that a given job filename exists in at most one
of the four state directories; each cross-state transition is modelled as the
single atomic rename (`insertReplace` paired with `removeName`) that the code
performs via `Path.replace`, never as a copy followed by a delete.  The
freshness hypothesis on enqueue reflects reachability: ingest generates a
timestamp+random filename that is new to the queue. -/
theorem queue_ops_preserve_unique_location (st st' : QState) (op : QOp) (n : String)
    (hfresh : ∀ e, op = QOp.enqueueOp e → e.name = n → inDirCount st n = 0)
    (h1 : inDirCount st n ≤ 1) (happ : applyOp st op = some st') :
    inDirCount st' n ≤ 1 := by
  cases op with
  | enqueueOp e =>
      simp only [applyOp, Option.some.injEq] at happ
      subst happ
      by_cases hn : e.name = n
      · have h0 := hfresh e rfl hn
        have hb : (n == e.name) = true := by simp [hn.symm]
        simp only [inDirCount, containsName_insertReplace, hb, Bool.true_or,
          Bool.toNat_true] at h0 ⊢
        omega
      · have hbe : (n == e.name) = false := beq_eq_false_iff_ne.2 (Ne.symm hn)
        simp only [inDirCount, containsName_insertReplace, hbe, Bool.false_or] at h1 ⊢
        exact h1
  | claimOp m =>
      simp only [applyOp, OndlQueue.claim_job] at happ
      cases hl : lookupName st.incoming m with
      | none => simp [hl] at happ
      | some e =>
          simp only [hl, Option.some.injEq] at happ
          subst happ
          have hm : e.name = m := lookupName_name hl
          have hcm : containsName st.incoming m = true := containsName_of_lookup hl
          by_cases hn : n = m
          · subst hn
            have hb : (n == e.name) = true := by simp [hm]
            simp only [inDirCount, containsName_insertReplace, containsName_removeName,
              hb, Bool.true_or, beq_self_eq_true, Bool.not_true, Bool.and_false,
              Bool.toNat_true, Bool.toNat_false] at h1 ⊢
            rw [hcm] at h1
            simp only [Bool.toNat_true] at h1
            omega
          · have hbe : (n == e.name) = false := by
              rw [hm]
              exact beq_eq_false_iff_ne.2 hn
            have hbm : (n == m) = false := beq_eq_false_iff_ne.2 hn
            simp only [inDirCount, containsName_insertReplace, containsName_removeName,
              hbe, hbm, Bool.false_or, Bool.not_false, Bool.and_true] at h1 ⊢
            exact h1
  | finishOp m ok =>
      simp only [applyOp, OndlQueue.finish_job] at happ
      cases hl : lookupName st.processing m with
      | none => simp [hl] at happ
      | some e =>
          simp only [hl] at happ
          have hm : e.name = m := lookupName_name hl
          have hcm : containsName st.processing m = true := containsName_of_lookup hl
          cases ok with
          | true =>
              simp only [if_true, Option.some.injEq] at happ
              subst happ
              by_cases hn : n = m
              · subst hn
                have hb : (n == e.name) = true := by simp [hm]
                simp only [inDirCount, containsName_insertReplace, containsName_removeName,
                  hb, Bool.true_or, beq_self_eq_true, Bool.not_true, Bool.and_false,
                  Bool.toNat_true, Bool.toNat_false] at h1 ⊢
                rw [hcm] at h1
                simp only [Bool.toNat_true] at h1
                omega
              · have hbe : (n == e.name) = false := by
                  rw [hm]
                  exact beq_eq_false_iff_ne.2 hn
                have hbm : (n == m) = false := beq_eq_false_iff_ne.2 hn
                simp only [inDirCount, containsName_insertReplace, containsName_removeName,
                  hbe, hbm, Bool.false_or, Bool.not_false, Bool.and_true] at h1 ⊢
                exact h1
          | false =>
              simp only [Bool.false_eq_true, if_false, Option.some.injEq] at happ
              subst happ
              by_cases hn : n = m
              · subst hn
                have hb : (n == e.name) = true := by simp [hm]
                simp only [inDirCount, containsName_insertReplace, containsName_removeName,
                  hb, Bool.true_or, beq_self_eq_true, Bool.not_true, Bool.and_false,
                  Bool.toNat_true, Bool.toNat_false] at h1 ⊢
                rw [hcm] at h1
                simp only [Bool.toNat_true] at h1
                omega
              · have hbe : (n == e.name) = false := by
                  rw [hm]
                  exact beq_eq_false_iff_ne.2 hn
                have hbm : (n == m) = false := beq_eq_false_iff_ne.2 hn
                simp only [inDirCount, containsName_insertReplace, containsName_removeName,
                  hbe, hbm, Bool.false_or, Bool.not_false, Bool.and_true] at h1 ⊢
                exact h1
  | reapOp sm a now mo =>
      simp only [applyOp] at happ
      cases hr : OndlQueue.reap_stale_processing_jobs st sm a now mo with
      | error s => rw [hr] at happ; simp [Except.toOption] at happ
      | ok p =>
          rw [hr] at happ
          simp only [Except.toOption, Option.map_some', Option.some.injEq] at happ
          subst happ
          exact reap_preserves st sm a now mo n h1 p hr

/-- Witness for C2: claiming the only job of a one-job queue keeps it in a
single state directory. -/
theorem queue_ops_preserve_unique_location_witness :
    inDirCount ⟨[], [⟨"a.dljob", 0, .objDoc []⟩], [], []⟩ "a.dljob" ≤ 1 :=
  queue_ops_preserve_unique_location ⟨[⟨"a.dljob", 0, .objDoc []⟩], [], [], []⟩
    ⟨[], [⟨"a.dljob", 0, .objDoc []⟩], [], []⟩ (QOp.claimOp "a.dljob") "a.dljob"
    (fun e h => nomatch h) (by decide) rfl



theorem runLoopFrom_processed (snapshot : List String) :
    ∀ (st : QState) (bodyOk : String → Bool) (cap p f : Nat),
      (Consume.runLoopFrom snapshot st bodyOk cap p f).2.1 = p + min (cap - p) snapshot.length := by
  induction snapshot with
  | nil =>
      intro st bodyOk cap p f
      simp [Consume.runLoopFrom]
  | cons j rest ih =>
      intro st bodyOk cap p f
      by_cases h : p ≥ cap
      · simp only [Consume.runLoopFrom, if_pos h]
        have : cap - p = 0 := by omega
        simp [this]
      · simp only [Consume.runLoopFrom, if_neg h]
        rw [ih]
        simp only [List.length_cons]
        omega

/-- C10: every iteration of one run-loop invocation counts toward the per-run
cap, whatever its outcome: the processed counter always reaches
`min max_per_run snapshot.length`, and concretely a batch of three scanned
jobs with cap 2 — where the first claim is lost to a race — attempts 2 jobs
but finishes only 1, while a ready job is still left in incoming. -/
theorem per_run_cap_counts_all_attempts :
    (∀ (snapshot : List String) (st : QState) (bodyOk : String → Bool) (cap : Nat),
        (Consume.runLoopFrom snapshot st bodyOk cap 0 0).2.1 = min cap snapshot.length) ∧
      Consume.runLoopFrom ["a.dljob", "b.dljob", "c.dljob"]
          ⟨[⟨"b.dljob", 1, .objDoc []⟩, ⟨"c.dljob", 2, .objDoc []⟩], [], [], []⟩
          (fun _ => true) 2 0 0 =
        (⟨[⟨"c.dljob", 2, .objDoc []⟩], [], [⟨"b.dljob", 1, .objDoc []⟩], []⟩, 2, 1) ∧
      containsName [⟨"c.dljob", 2, .objDoc []⟩] "c.dljob" = true :=
  ⟨fun snapshot st bodyOk cap => by rw [runLoopFrom_processed]; omega,
   by decide, by decide⟩

/-- C3 counterexample: with incoming holding "b.dljob" (mtime 1, older) and
"a.dljob" (mtime 2, newer), src/consume.py claims "a.dljob" — the newer job —
first: its listing is by filename, not by last-modified time ascending. -/
theorem consume_order_ignores_mtime_cex :
    Consume.listReady [⟨"b.dljob", 1, .objDoc []⟩, ⟨"a.dljob", 2, .objDoc []⟩] =
        [⟨"a.dljob", 2, .objDoc []⟩, ⟨"b.dljob", 1, .objDoc []⟩] ∧
      ¬ (Consume.listReady [⟨"b.dljob", 1, .objDoc []⟩,
          ⟨"a.dljob", 2, .objDoc []⟩]).Sorted BinConsumer.mtimeLe :=
  ⟨by decide, by decide⟩

/-- C3 amended: the legacy src/bin/consumer.py loop does list ready jobs by
last-modified time ascending, while src/consume.py lists them in lexicographic
filename order; both listings are permutations of the directory. -/
theorem run_loop_listing_orders :
    (∀ d : Dir, (BinConsumer.listReadyByMtime d).Sorted BinConsumer.mtimeLe ∧
        (BinConsumer.listReadyByMtime d).Perm d) ∧
      (∀ d : Dir, (Consume.listReady d).Sorted Consume.nameLe ∧
        (Consume.listReady d).Perm d) :=
  ⟨fun d => ⟨List.sorted_insertionSort BinConsumer.mtimeLe d,
    List.perm_insertionSort BinConsumer.mtimeLe d⟩,
   fun d => ⟨List.sorted_insertionSort Consume.nameLe d,
    List.perm_insertionSort Consume.nameLe d⟩⟩



/-- C4 counterexample: the reaper of src/ondl/queue.py (the one src/consume.py
runs) does NOT append a suffix on collision — requeueing the stale
"j.dljob" clobbers the distinct job file of the same name already sitting in
incoming, which is silently lost. -/
theorem ondl_reaper_overwrites_cex :
    OndlQueue.reap_stale_processing_jobs
        ⟨[⟨"j.dljob", 100, .objDoc [("url", "http://old")]⟩],
         [⟨"j.dljob", 0, .objDoc [("url", "http://new")]⟩], [], []⟩
        1 "requeue" 10000 (fun _ => .ok) =
      .ok (⟨[⟨"j.dljob", 0, .objDoc [("url", "http://new")]⟩], [], [], []⟩, 1) ∧
      (⟨"j.dljob", 100, .objDoc [("url", "http://old")]⟩ : FileEnt) ∉
        ([⟨"j.dljob", 0, .objDoc [("url", "http://new")]⟩] : Dir) :=
  ⟨rfl, by decide⟩

/-- C4 amended: only the legacy src/bin/consumer.py reaper avoids collisions —
a stale processing job whose name already exists in the target directory is
renamed to `reapedName` (stem + ".reaped-" + stamp + extension) and the
existing file is preserved; the src/ondl/queue.py reaper instead overwrites. -/
theorem consumer_reaper_collision_suffix
    (inc dn er : Dir) (j : FileEnt) (sm now : Int) (stamp : String)
    (mo : String → MoveOutcome)
    (hsm : 0 < sm) (hstale : (j.mtime : Int) < now - sm * 60)
    (hcol : containsName inc j.name = true) (hmo : mo j.name = .ok) :
    BinConsumer.reap_stale_processing_jobs ⟨inc, [j], dn, er⟩ sm "requeue" now mo stamp =
        .ok (⟨insertReplace inc { j with name := BinConsumer.reapedName j.name stamp },
              [], dn, er⟩, 1) ∧
      ∀ d ∈ inc, d.name ≠ BinConsumer.reapedName j.name stamp →
        d ∈ insertReplace inc { j with name := BinConsumer.reapedName j.name stamp } := by
  constructor
  · unfold BinConsumer.reap_stale_processing_jobs
    rw [if_neg (not_le.2 hsm)]
    have hsort : ([j] : List FileEnt).insertionSort BinConsumer.mtimeLe = [j] := rfl
    have hgo : BinConsumer.reapGoC [j] ⟨inc, [j], dn, er⟩ (now - sm * 60) true mo stamp 0 =
        (⟨insertReplace inc { j with name := BinConsumer.reapedName j.name stamp },
          [], dn, er⟩, 1) := by
      unfold BinConsumer.reapGoC
      have hl : lookupName ([j] : Dir) j.name = some j := by
        simp [lookupName, List.find?]
      simp only [hl]
      rw [if_neg (not_le.2 hstale)]
      simp only [if_pos, hcol, if_true, hmo]
      unfold BinConsumer.reapGoC
      simp [removeName, List.filter]
    exact hgo ▸ rfl
  · intro d hd hne
    simp only [insertReplace, removeName, List.mem_cons, List.mem_filter, bne_iff_ne]
    exact Or.inr ⟨hd, hne⟩



/-- Witness for the amended C4 at a concrete collision. -/
theorem consumer_reaper_collision_suffix_witness :
    BinConsumer.reap_stale_processing_jobs
        ⟨[⟨"j.dljob", 100, .objDoc [("url", "http://old")]⟩],
         [⟨"j.dljob", 0, .objDoc [("url", "http://new")]⟩], [], []⟩
        1 "requeue" 10000 (fun _ => .ok) "s" =
      .ok (⟨insertReplace [⟨"j.dljob", 100, .objDoc [("url", "http://old")]⟩]
              { (⟨"j.dljob", 0, .objDoc [("url", "http://new")]⟩ : FileEnt) with
                  name := BinConsumer.reapedName "j.dljob" "s" }, [], [], []⟩, 1) ∧
      ∀ d ∈ ([⟨"j.dljob", 100, .objDoc [("url", "http://old")]⟩] : Dir),
        d.name ≠ BinConsumer.reapedName "j.dljob" "s" →
        d ∈ insertReplace [⟨"j.dljob", 100, .objDoc [("url", "http://old")]⟩]
              { (⟨"j.dljob", 0, .objDoc [("url", "http://new")]⟩ : FileEnt) with
                  name := BinConsumer.reapedName "j.dljob" "s" } :=
  consumer_reaper_collision_suffix
    [⟨"j.dljob", 100, .objDoc [("url", "http://old")]⟩] [] []
    ⟨"j.dljob", 0, .objDoc [("url", "http://new")]⟩ 1 10000 "s" (fun _ => .ok)
    (by decide) (by decide) (by decide) rfl

/-- C6 counterexample: in the src/ondl/queue.py reaper an `OSError` while
moving the first stale job is not caught: the pass aborts with the raised
error, the second stale job is never moved, and no count is returned. -/
theorem ondl_reaper_aborts_cex :
    OndlQueue.reap_stale_processing_jobs
        ⟨[], [⟨"a.dljob", 0, .objDoc []⟩, ⟨"b.dljob", 0, .objDoc []⟩], [], []⟩
        1 "requeue" 10000 (fun n => if n == "a.dljob" then .osError else .ok) =
      .error "OSError" :=
  rfl

/-- C6 amended: only the legacy src/bin/consumer.py reaper logs and skips a
failed move: with two stale jobs where the first move raises, the pass
completes, the second job is still requeued, and the count of moved jobs (1)
is returned, the failed job staying in processing. -/
theorem consumer_reaper_skips_failures
    (inc dn er : Dir) (j1 j2 : FileEnt) (sm now : Int) (stamp : String)
    (mo : String → MoveOutcome)
    (hsm : 0 < sm) (hst1 : (j1.mtime : Int) < now - sm * 60)
    (hst2 : (j2.mtime : Int) < now - sm * 60)
    (hord : j1.mtime ≤ j2.mtime) (hne : j1.name ≠ j2.name)
    (hmo1 : mo j1.name = .osError) (hmo2 : mo j2.name = .ok)
    (hcol : containsName inc j2.name = false) :
    BinConsumer.reap_stale_processing_jobs ⟨inc, [j1, j2], dn, er⟩ sm "requeue" now mo stamp =
      .ok (⟨insertReplace inc j2, [j1], dn, er⟩, 1) := by
  unfold BinConsumer.reap_stale_processing_jobs
  rw [if_neg (not_le.2 hsm)]
  have hsort : ([j1, j2] : List FileEnt).insertionSort BinConsumer.mtimeLe = [j1, j2] := by
    simp [List.insertionSort, List.orderedInsert, BinConsumer.mtimeLe, hord]
  have hbne : (j1.name == j2.name) = false := beq_eq_false_iff_ne.2 hne
  have hgo : BinConsumer.reapGoC [j1, j2] ⟨inc, [j1, j2], dn, er⟩ (now - sm * 60) true mo stamp 0 =
      (⟨insertReplace inc j2, [j1], dn, er⟩, 1) := by
    unfold BinConsumer.reapGoC
    have hl1 : lookupName ([j1, j2] : Dir) j1.name = some j1 := by
      simp [lookupName, List.find?]
    simp only [hl1]
    rw [if_neg (not_le.2 hst1)]
    simp only [hmo1]
    unfold BinConsumer.reapGoC
    have hl2 : lookupName ([j1, j2] : Dir) j2.name = some j2 := by
      simp [lookupName, List.find?, hbne]
    simp only [hl2]
    rw [if_neg (not_le.2 hst2)]
    simp only [if_pos, hcol, Bool.false_eq_true, if_false, hmo2]
    unfold BinConsumer.reapGoC
    have hb : (j1.name != j2.name) = true := by
      simp [bne_iff_ne, hne]
    have hrm : removeName ([j1, j2] : Dir) j2.name = [j1] := by
      simp [removeName, List.filter, hb]
    simp [hrm]
  rw [hsort] at *
  exact hgo ▸ rfl

/-- Witness for the amended C6 with two concrete stale jobs. -/
theorem consumer_reaper_skips_failures_witness :
    BinConsumer.reap_stale_processing_jobs
        ⟨[], [⟨"a.dljob", 0, .objDoc []⟩, ⟨"b.dljob", 0, .objDoc []⟩], [], []⟩
        1 "requeue" 10000 (fun n => if n == "a.dljob" then .osError else .ok) "s" =
      .ok (⟨insertReplace [] ⟨"b.dljob", 0, .objDoc []⟩,
            [⟨"a.dljob", 0, .objDoc []⟩], [], []⟩, 1) :=
  consumer_reaper_skips_failures [] [] [] ⟨"a.dljob", 0, .objDoc []⟩
    ⟨"b.dljob", 0, .objDoc []⟩ 1 10000 "s"
    (fun n => if n == "a.dljob" then .osError else .ok)
    (by decide) (by decide) (by decide) (by decide) (by decide) rfl rfl rfl



theorem already_queued_iff {st : QState} {u : String} :
    Ingest.already_queued st u = true ↔
      ∃ e ∈ st.incoming ++ st.processing, ∃ f, e.content = .objDoc f ∧
        pyStrip (getFieldD f "url" "") = u := by
  simp only [Ingest.already_queued, List.any_eq_true]
  constructor
  · rintro ⟨e, he, hm⟩
    cases hc : e.content with
    | objDoc f =>
        rw [hc] at hm
        exact ⟨e, he, f, hc, by simpa [beq_iff_eq] using hm⟩
    | badJson =>
        rw [hc] at hm
        simp at hm
  · rintro ⟨e, he, f, hc, hu⟩
    refine ⟨e, he, ?_⟩
    rw [hc]
    simpa [beq_iff_eq] using hu

/-- C5 counterexample: when `resolve_tool` cannot find yt-dlp, src/ingest.py
raises before any dedup check and exits 3 with "ERROR internal" — a fresh,
valid request is NOT enqueued, although only the optional lookup machinery is
unavailable. -/
theorem ingest_tool_missing_cex :
    Ingest.ingest_main ⟨false, none, []⟩ (.obj [("url", "http://v")])
        ⟨[], [], [], []⟩ "t" 1 5 =
      (.errInternal, ⟨[], [], [], []⟩) ∧
      Ingest.exitCode .errInternal = 3 :=
  ⟨by decide, rfl⟩

/-- C5 amended: the optional-lookup tolerance holds one step later: when the
tool resolves but the per-URL probe command fails (`_archive_keyline` returns
`None`), a valid, not-already-queued request is still enqueued; only a failure
of `resolve_tool` itself aborts ingestion with an internal error. -/
theorem ingest_lookup_failure_still_enqueues
    (env : Ingest.IngestEnv) (st : QState) (fields : List (String × String))
    (ts : String) (rand now : Nat)
    (htool : env.toolResolved = true) (hkey : env.keyline = none)
    (hurl : pyStrip (getFieldD fields "url" "") ≠ "")
    (hq : Ingest.already_queued st (pyStrip (getFieldD fields "url" "")) = false) :
    ∃ payload : List (String × String),
      Ingest.ingest_main env (.obj fields) st ts rand now =
        (.queued (ts ++ "-" ++ Nat.repr rand ++ ".dljob"),
         { st with incoming := (Ingest.enqueue_atomic st.incoming
             (ts ++ "-" ++ Nat.repr rand ++ ".dljob") now payload) }) := by
  have hu : (pyStrip (getFieldD fields "url" "") == "") = false := beq_eq_false_iff_ne.2 hurl
  simp only [Ingest.ingest_main, hu, Bool.false_eq_true, if_false, htool, Bool.not_true,
    hq, hkey]
  exact ⟨_, rfl⟩

/-- Witness for the amended C5: lookup fails, yet the request is queued. -/
theorem ingest_lookup_failure_still_enqueues_witness :
    ∃ payload : List (String × String),
      Ingest.ingest_main ⟨true, none, []⟩ (.obj [("url", "http://v")])
          ⟨[], [], [], []⟩ "t" 1 5 =
        (.queued ("t" ++ "-" ++ Nat.repr 1 ++ ".dljob"),
         { (⟨[], [], [], []⟩ : QState) with incoming := (Ingest.enqueue_atomic []
             ("t" ++ "-" ++ Nat.repr 1 ++ ".dljob") 5 payload) }) :=
  ingest_lookup_failure_still_enqueues ⟨true, none, []⟩ ⟨[], [], [], []⟩
    [("url", "http://v")] "t" 1 5 rfl rfl (by decide) (by decide)

/-- C9: a request whose locator equals the stored url of a job in incoming or
processing is answered AlreadyQueued with exit code 0 and no new file. -/
theorem duplicate_locator_already_queued
    (env : Ingest.IngestEnv) (st : QState) (fields : List (String × String))
    (ts : String) (rand now : Nat)
    (htool : env.toolResolved = true)
    (hurl : pyStrip (getFieldD fields "url" "") ≠ "")
    (hdup : ∃ e ∈ st.incoming ++ st.processing, ∃ f, e.content = .objDoc f ∧
        pyStrip (getFieldD f "url" "") = pyStrip (getFieldD fields "url" "")) :
    Ingest.ingest_main env (.obj fields) st ts rand now = (.alreadyQueued, st) ∧
      Ingest.exitCode (Ingest.ingest_main env (.obj fields) st ts rand now).1 = 0 := by
  have hq : Ingest.already_queued st (pyStrip (getFieldD fields "url" "")) = true :=
    already_queued_iff.2 hdup
  have hu : (pyStrip (getFieldD fields "url" "") == "") = false := beq_eq_false_iff_ne.2 hurl
  have hmain : Ingest.ingest_main env (.obj fields) st ts rand now = (.alreadyQueued, st) := by
    simp only [Ingest.ingest_main, hu, Bool.false_eq_true, if_false, htool, Bool.not_true,
      hq, if_true]
  refine ⟨hmain, ?_⟩
  rw [hmain]
  rfl

/-- Witness for C9: the same locator submitted while its job sits in incoming. -/
theorem duplicate_locator_already_queued_witness :
    Ingest.ingest_main ⟨true, none, []⟩ (.obj [("url", "http://v")])
        ⟨[⟨"x.dljob", 1, .objDoc [("url", "http://v")]⟩], [], [], []⟩ "t" 1 5 =
      (.alreadyQueued, ⟨[⟨"x.dljob", 1, .objDoc [("url", "http://v")]⟩], [], [], []⟩) ∧
      Ingest.exitCode (Ingest.ingest_main ⟨true, none, []⟩ (.obj [("url", "http://v")])
        ⟨[⟨"x.dljob", 1, .objDoc [("url", "http://v")]⟩], [], [], []⟩ "t" 1 5).1 = 0 :=
  duplicate_locator_already_queued ⟨true, none, []⟩
    ⟨[⟨"x.dljob", 1, .objDoc [("url", "http://v")]⟩], [], [], []⟩
    [("url", "http://v")] "t" 1 5 rfl (by decide)
    ⟨⟨"x.dljob", 1, .objDoc [("url", "http://v")]⟩, by decide,
     [("url", "http://v")], rfl, rfl⟩



/-- C7 counterexample: the parser of src/ondl/queue.py (the one src/consume.py
uses) leaves an absent category and app as the empty string — not "unsorted"
and not "YouTube". -/
theorem ondl_parser_no_defaults_cex :
    OndlQueue.parse_job_file (.objDoc [("url", "http://a")]) =
        .ok ⟨"http://a", "", "", [("url", "http://a")]⟩ ∧
      ("" : String) ≠ "unsorted" ∧ ("" : String) ≠ "YouTube" :=
  ⟨rfl, by decide, by decide⟩

/-- C7 amended: the "unsorted"/"YouTube" defaults for absent optional fields
exist only in the legacy src/bin/consumer.py parser; the src/ondl/queue.py
parser yields empty strings for them. -/
theorem parser_defaults_amended (fields : List (String × String))
    (hcat : getField fields "category" = none) (happ : getField fields "app" = none) :
    (∀ j, OndlQueue.parse_job_file (.objDoc fields) = .ok j →
        j.category = "" ∧ j.app = "") ∧
      (∀ j, BinConsumer.parse_job_file (.objDoc fields) = .ok j →
        j.category = "unsorted" ∧ j.app = "YouTube") := by
  constructor
  · intro j hj
    simp only [OndlQueue.parse_job_file, Except.ok.injEq] at hj
    rw [← hj]
    simp [getFieldD, hcat, happ, pyStrip]
  · intro j hj
    simp only [BinConsumer.parse_job_file, hcat, happ] at hj
    by_cases hs : pyStartsWith (pyLower (pyStrip (pyOr (getField fields "url") ""))) "http" = true
    · simp only [hs, if_true, Except.ok.injEq] at hj
      rw [← hj]
      constructor
      · rfl
      · rfl
    · simp only [Bool.not_eq_true] at hs
      simp [hs] at hj

/-- Witness for the amended C7 on a job file with only a url field. -/
theorem parser_defaults_amended_witness :
    (∀ j, OndlQueue.parse_job_file (.objDoc [("url", "http://a")]) = .ok j →
        j.category = "" ∧ j.app = "") ∧
      (∀ j, BinConsumer.parse_job_file (.objDoc [("url", "http://a")]) = .ok j →
        j.category = "unsorted" ∧ j.app = "YouTube") :=
  parser_defaults_amended [("url", "http://a")] rfl rfl

/-- C8 counterexample: src/ondl/queue.py `parse_job_file` happily returns a
Job record for a valid JSON object with no url at all — it does not raise on a
missing locator. -/
theorem ondl_parser_missing_url_cex :
    OndlQueue.parse_job_file (.objDoc [("category", "x")]) =
      .ok ⟨"", "x", "", [("category", "x")]⟩ :=
  rfl

/-- C8 amended: the src/ondl/queue.py parser fails only on invalid structured
data, returning a url-less Job otherwise (the pipeline, not the parser,
rejects it later); only the legacy src/bin/consumer.py parser raises on a
document whose url is missing. -/
theorem parser_missing_url_amended (fields : List (String × String))
    (hurl : getField fields "url" = none) :
    OndlQueue.parse_job_file (.objDoc fields) =
        .ok ⟨"", pyStrip (getFieldD fields "category" ""),
             pyStrip (getFieldD fields "app" ""), fields⟩ ∧
      BinConsumer.parse_job_file (.objDoc fields) = .error .noUrl ∧
      OndlQueue.parse_job_file .badJson = .error .jsonError ∧
      BinConsumer.parse_job_file .badJson = .error .jsonError := by
  refine ⟨?_, ?_, rfl, rfl⟩
  · simp [OndlQueue.parse_job_file, getFieldD, hurl]
    rfl
  · simp [BinConsumer.parse_job_file, hurl]
    rfl

/-- Witness for the amended C8 on a url-less job document. -/
theorem parser_missing_url_amended_witness :
    OndlQueue.parse_job_file (.objDoc [("category", "c")]) =
        .ok ⟨"", pyStrip (getFieldD [("category", "c")] "category" ""),
             pyStrip (getFieldD [("category", "c")] "app" ""), [("category", "c")]⟩ ∧
      BinConsumer.parse_job_file (.objDoc [("category", "c")]) = .error .noUrl ∧
      OndlQueue.parse_job_file .badJson = .error .jsonError ∧
      BinConsumer.parse_job_file .badJson = .error .jsonError :=
  parser_missing_url_amended [("category", "c")] rfl


end OnDL
